import Mathlib

/-!
Verification development for the micro-organisms repository: a shallow
embedding of the presentation-layer chart code (from
`src/frontend` / `src/unnamed/part_000`, `part_001`) together with a model of
the composition aggregation engine that the specification defines
(loader, metadata index, join and aggregation engine, query service).
The engine itself is described only in the specification, so its
definitions below are modelled from the spec's component contracts.
-/

namespace Microorg

/-! ### Presentation layer, embedded from the source

`CompositionChart` (src/unnamed/part_001) filters the composition data to
abundances strictly greater than 1, sorts descending by abundance with the
JavaScript stable sort, and computes a display label per taxon path by
taking the first semicolon-separated segment starting with `p__` and
replacing the first occurrence of `p__` with the empty string.
-/

/-- Split a character list at every character satisfying `p`; a separator
at either end or two adjacent separators yield empty segments, as in
JavaScript `String.prototype.split` with a one-character separator. -/
def splitCharsAux (p : Char → Bool) (acc : List Char) :
    List Char → List (List Char)
  | [] => [acc.reverse]
  | c :: cs =>
    if p c then acc.reverse :: splitCharsAux p [] cs
    else splitCharsAux p (c :: acc) cs

/-- Split a string at every character satisfying `p`. -/
def splitChars (p : Char → Bool) (s : String) : List String :=
  (splitCharsAux p [] s.toList).map (fun l => ⟨l⟩)

/-- Lower-case every character of a string. -/
def lowerString (s : String) : String :=
  ⟨s.toList.map Char.toLower⟩

/-- JavaScript `String.prototype.startsWith`, embedded on character lists. -/
def jsStartsWith (s pat : String) : Bool :=
  pat.toList.isPrefixOf s.toList

/-- Replace the first occurrence of `pat` in the list, like JavaScript
`String.prototype.replace` with a string pattern. -/
def replFirstAux (pat repl : List Char) : List Char → List Char
  | [] => []
  | c :: cs =>
    if pat.isPrefixOf (c :: cs) then repl ++ (c :: cs).drop pat.length
    else c :: replFirstAux pat repl cs

/-- JavaScript `String.prototype.replace` with a string pattern: only the
first occurrence is replaced; an empty pattern matches at position 0. -/
def jsReplaceFirst (s pat repl : String) : String :=
  if pat.isEmpty then ⟨repl.toList ++ s.toList⟩
  else ⟨replFirstAux pat.toList repl.toList s.toList⟩

/-- Embedded from `CompositionChart` (src/unnamed/part_001, lines 42-47):
the display label of a taxon path is the first `;`-separated segment that
starts with `p__`, with that first `p__` replaced by the empty string, or
the whole path when no segment starts with `p__`. -/
def chartLabel (taxon : String) : String :=
  let parts := splitChars (fun c => c = ';') taxon
  match parts.find? (fun part => jsStartsWith part "p__") with
  | some phylum => jsReplaceFirst phylum "p__" ""
  | none => taxon

/-- Embedded from `CompositionChart` (src/unnamed/part_001, lines 38-40):
keep only entries with abundance strictly greater than 1, then sort by
abundance descending (JavaScript's stable sort with comparator `b - a`). -/
def chartFilteredData (data : List (String × ℚ)) : List (String × ℚ) :=
  List.insertionSort (fun a b : String × ℚ => b.2 ≤ a.2)
    (data.filter (fun p => 1 < p.2))

/-! ### Engine data model, modelled from the spec (section 3) -/

abbrev TaxonPath := String
abbrev RunId := String
abbrev EnvironmentLabel := String

/-- Modelled from the spec: a TaxonTable row is a run identifier together
with a sparse mapping from taxon path to relative abundance (section 3);
the engine's loader is not present in the source. -/
structure TaxonRow where
  run_id : RunId
  abund : List (TaxonPath × ℚ)
deriving DecidableEq

/-- Modelled from the spec: ordered sequence of rows (section 3). -/
abbrev TaxonTable := List TaxonRow

/-- Modelled from the spec: run-level metadata record (section 3); the
metadata index is not present in the source. -/
structure RunMetadata where
  organism_name : String
  biosample_id : Option String := none
deriving DecidableEq

/-- Modelled from the spec: mapping from run_id (unique key) to
RunMetadata (section 3). -/
abbrev MetadataIndex := List (RunId × RunMetadata)

/-- Look up a run identifier in the metadata index. -/
def lookupRun (m : MetadataIndex) (r : RunId) : Option RunMetadata :=
  (m.find? (fun p => decide (p.1 = r))).map (·.2)

/-- Modelled from the spec: EnvironmentLabel normalization — trim,
case-fold, collapse whitespace (section 3); not present in the source. -/
def normalizeLabel (s : String) : String :=
  String.intercalate " "
    ((splitChars Char.isWhitespace (lowerString s)).filter (fun t => !t.isEmpty))

/-- Modelled from the spec: per-(environment, rank) aggregate — sample
count, per-taxon mean, per-taxon presence count (section 3). -/
structure AggregateComposition where
  sample_count : Nat
  per_taxon_mean : List (TaxonPath × ℚ)
  per_taxon_count : List (TaxonPath × Nat)
deriving DecidableEq

/-! ### Export ordering (spec section 4.3 tie-break) -/

/-- Modelled from the spec: export order on labelled numeric records —
numeric key descending, then label ascending (section 4.3 tie-break). -/
def keyLE {β : Type} [LinearOrder β] (a b : String × β) : Prop :=
  b.2 < a.2 ∨ (a.2 = b.2 ∧ a.1 ≤ b.1)

instance {β : Type} [LinearOrder β] : DecidableRel (keyLE (β := β)) := by
  unfold keyLE; infer_instance

instance {β : Type} [LinearOrder β] : IsTotal (String × β) keyLE := by
  constructor
  intro a b
  rcases lt_trichotomy a.2 b.2 with h | h | h
  · exact Or.inr (Or.inl h)
  · rcases le_total a.1 b.1 with h1 | h1
    · exact Or.inl (Or.inr ⟨h, h1⟩)
    · exact Or.inr (Or.inr ⟨h.symm, h1⟩)
  · exact Or.inl (Or.inl h)

instance {β : Type} [LinearOrder β] : IsTrans (String × β) keyLE := by
  constructor
  intro a b c hab hbc
  rcases hab with h1 | ⟨h1, h1s⟩
  · rcases hbc with h2 | ⟨h2, _⟩
    · exact Or.inl (h2.trans h1)
    · exact Or.inl (h2 ▸ h1)
  · rcases hbc with h2 | ⟨h2, h2s⟩
    · exact Or.inl (lt_of_lt_of_le h2 (le_of_eq h1.symm))
    · exact Or.inr ⟨h1.trans h2, h1s.trans h2s⟩

instance {β : Type} [LinearOrder β] : IsAntisymm (String × β) keyLE := by
  constructor
  intro a b hab hba
  rcases hab with h1 | ⟨h1, h1s⟩
  · rcases hba with h2 | ⟨h2, _⟩
    · exact absurd (h1.trans h2) (lt_irrefl _)
    · exact absurd h1 (h2 ▸ lt_irrefl _)
  · rcases hba with h2 | ⟨h2, h2s⟩
    · exact absurd h2 (h1 ▸ lt_irrefl _)
    · exact Prod.ext (le_antisymm h1s h2s) h1

/-- Sort the taxa of a composition for export: mean descending, then
taxon path ascending (spec section 4.3). -/
def sortTaxa (l : List (TaxonPath × ℚ)) : List (TaxonPath × ℚ) :=
  List.insertionSort keyLE l

/-- Export order on environment aggregates: sample_count descending, then
label ascending (spec section 4.3 tie-break). -/
def envLE (a b : EnvironmentLabel × AggregateComposition) : Prop :=
  keyLE (a.1, a.2.sample_count) (b.1, b.2.sample_count)

instance : DecidableRel envLE := by
  unfold envLE; infer_instance

instance : IsTotal (EnvironmentLabel × AggregateComposition) envLE :=
  ⟨fun a b => IsTotal.total (r := keyLE) (a.1, a.2.sample_count) (b.1, b.2.sample_count)⟩

instance : IsTrans (EnvironmentLabel × AggregateComposition) envLE :=
  ⟨fun _ _ _ hab hbc => IsTrans.trans (r := keyLE) _ _ _ hab hbc⟩

/-- Sort labelled environment aggregates for export (spec section 4.3). -/
def sortEnvs (l : List (EnvironmentLabel × AggregateComposition)) :
    List (EnvironmentLabel × AggregateComposition) :=
  List.insertionSort envLE l

/-! ### Taxon Table Loader, modelled from the spec (section 4.1) -/

/-- Modelled from the spec: load errors — source unreadable, or empty /
header-only input (section 4.1); the loader is not present in the source. -/
inductive LoadError
  | unreadable
  | emptyInput
  | headerOnly
deriving DecidableEq

/-- Modelled from the spec: a delimited source is either unreadable or a
list of already-split lines of cells (section 4.1). -/
inductive Source
  | unreadable
  | content (rows : List (List String))
deriving DecidableEq

/-- Numeric value of a digit run. -/
def digitsVal (ds : List Char) : Nat :=
  ds.foldl (fun n c => 10 * n + (c.toNat - '0'.toNat)) 0

/-- Rational value of a decimal numeral given as integer part and
fractional part digit runs. -/
def decimalVal (intp frac : List Char) : ℚ :=
  (digitsVal intp : ℚ) + (digitsVal frac : ℚ) / (10 : ℚ) ^ frac.length

/-- Modelled from the spec: a cell is a numeric abundance when it is a
nonempty decimal numeral — digits with at most one decimal point and at
least one digit (section 4.1, non-numeric abundance detection). -/
def parseAbundance (s : String) : Option ℚ :=
  let cs := s.toList
  if cs.all (fun c => c.isDigit || c = '.') ∧ cs.count '.' ≤ 1 ∧
      cs.any Char.isDigit then
    some (decimalVal (cs.takeWhile (fun c => c ≠ '.'))
      ((cs.dropWhile (fun c => c ≠ '.')).drop 1))
  else none

/-- Modelled from the spec: parse one data row against the header's taxon
paths; `none` when the row is malformed — wrong column count or a
non-numeric abundance cell (section 4.1). -/
def parseRow (taxa : List TaxonPath) (cells : List String) : Option TaxonRow :=
  match cells with
  | [] => none
  | runId :: vals =>
    if vals.length = taxa.length ∧ vals.all (fun v => (parseAbundance v).isSome)
    then some ⟨runId, taxa.zip (vals.filterMap parseAbundance)⟩
    else none

/-- Modelled from the spec: `load(source, rank) -> TaxonTable` — skip and
count malformed rows; fail with `LoadError` only on an unreadable source
or empty/header-only input (section 4.1). Returns the table, the header's
taxon paths, and the skipped-row count. -/
def load (src : Source) : Except LoadError (TaxonTable × List TaxonPath × Nat) :=
  match src with
  | .unreadable => .error .unreadable
  | .content [] => .error .emptyInput
  | .content [_] => .error .headerOnly
  | .content (header :: rows) =>
    let taxa := header.drop 1
    .ok (rows.filterMap (parseRow taxa), taxa,
      rows.countP (fun r => (parseRow taxa r).isNone))

/-! ### Metadata Index load, modelled from the spec (section 4.2) -/

/-- Modelled from the spec: build the metadata index from raw rows — on a
duplicate run identifier the last record wins and a duplicate count is
reported, never an error (section 4.2); not present in the source. -/
def loadMetadata : List (RunId × RunMetadata) → MetadataIndex × Nat
  | [] => ([], 0)
  | row :: rest =>
    let (idx, d) := loadMetadata rest
    if (idx.find? (fun p => decide (p.1 = row.1))).isSome then (idx, d + 1)
    else (row :: idx, d)

/-! ### Join and Aggregation Engine, modelled from the spec (section 4.3) -/

/-- Modelled from the spec: aggregation failure — zero rows matched the
metadata (section 4.3); not present in the source. -/
inductive AggregationError
  | noRowsMatched
deriving DecidableEq

/-- Modelled from the spec: summary counts exposed alongside a successful
aggregation (sections 4.3 and 7). -/
structure AggSummary where
  unmatched : Nat
  excluded_low_n : Nat
deriving DecidableEq

/-- Abundance of a taxon path in a row's sparse mapping. -/
def rowAbund (row : TaxonRow) (tp : TaxonPath) : Option ℚ :=
  (row.abund.find? (fun p => decide (p.1 = tp))).map (·.2)

/-- Match one table row against the metadata: inner join on run_id,
grouping key is the normalized environment label (spec section 4.3). -/
def matchRow (m : MetadataIndex) (row : TaxonRow) :
    Option (EnvironmentLabel × TaxonRow) :=
  (lookupRun m row.run_id).map (fun md => (normalizeLabel md.organism_name, row))

/-- All taxon paths mentioned by a group of rows, first occurrence first. -/
def groupTaxa (rows : List TaxonRow) : List TaxonPath :=
  ((rows.map (fun r => r.abund.map (·.1))).flatten).dedup

/-- Modelled from the spec: aggregate one group of matched rows — mean is
sum over all samples divided by sample_count with an absent value
contributing 0, presence counts reported separately, taxa sorted for
export (spec section 4.3). -/
def groupComposition (rows : List TaxonRow) : AggregateComposition :=
  let n := rows.length
  let taxa := groupTaxa rows
  { sample_count := n
    per_taxon_mean := sortTaxa (taxa.map (fun tp =>
      (tp, (rows.map (fun r => (rowAbund r tp).getD 0)).sum / (n : ℚ))))
    per_taxon_count := taxa.map (fun tp =>
      (tp, rows.countP (fun r => (rowAbund r tp).isSome))) }

/-- Rows of the table that match the metadata, tagged with their
normalized environment label. -/
def matchedRows (t : TaxonTable) (m : MetadataIndex) :
    List (EnvironmentLabel × TaxonRow) :=
  t.filterMap (matchRow m)

/-- The matched rows belonging to one environment label. -/
def groupRows (t : TaxonTable) (m : MetadataIndex) (lab : EnvironmentLabel) :
    List TaxonRow :=
  ((matchedRows t m).filter (fun p => decide (p.1 = lab))).map (·.2)

/-- Modelled from the spec: `aggregate(taxon_table, metadata_index, rank,
min_samples)` — inner join, group by normalized label, per-group mean
sum/sample_count, exclude groups below min_samples as a summary
statistic, error exactly when zero rows matched (section 4.3). -/
def aggregate (t : TaxonTable) (m : MetadataIndex) (min_samples : Nat) :
    Except AggregationError
      (List (EnvironmentLabel × AggregateComposition) × AggSummary) :=
  let matched := matchedRows t m
  if matched.isEmpty then .error .noRowsMatched
  else
    let labels := (matched.map (·.1)).dedup
    let comps := labels.map (fun lab => (lab, groupComposition (groupRows t m lab)))
    let kept := comps.filter (fun p => decide (min_samples ≤ p.2.sample_count))
    .ok (sortEnvs kept,
      { unmatched := t.length - matched.length
        excluded_low_n := comps.length - kept.length })

/-! ### Composition Query Service, modelled from the spec (section 4.4) -/

/-- Modelled from the spec: query failure for an unknown environment or a
rank that is not loaded (section 4.4); not present in the source. -/
inductive NotFoundError
  | notFound
deriving DecidableEq

/-- Modelled from the spec: the published data of one loaded rank — its
aggregates and the aggregation summary (sections 3 and 4.4). -/
structure RankData where
  aggregates : List (EnvironmentLabel × AggregateComposition)
  summary : AggSummary
deriving DecidableEq

/-- Modelled from the spec: the query service's state — the mapping from
rank to its published aggregate set (sections 4.4 and 5). -/
structure EngineState where
  ranks : List (String × RankData)
deriving DecidableEq

/-- The published data of a rank, when that rank is loaded. -/
def findRank (st : EngineState) (rank : String) : Option RankData :=
  (st.ranks.find? (fun p => decide (p.1 = rank))).map (·.2)

/-- The stored, unfiltered aggregate for a normalized environment label at
a rank. Normalization is applied to the queried label, identically to load
time (spec section 3). -/
def findStored (st : EngineState) (env rank : String) :
    Option AggregateComposition :=
  match findRank st rank with
  | none => none
  | some rd =>
    (rd.aggregates.find? (fun p => decide (p.1 = normalizeLabel env))).map (·.2)

/-- Modelled from the spec: `getComposition(environment_label, rank,
min_abundance)` — the stored aggregate filtered to taxa with mean at least
`min_abundance`, `NotFoundError` when the label/rank pair has no aggregate
(section 4.4). -/
def getComposition (st : EngineState) (env rank : String) (min_abundance : ℚ) :
    Except NotFoundError AggregateComposition :=
  match findStored st env rank with
  | none => .error .notFound
  | some comp =>
    .ok { comp with per_taxon_mean :=
      comp.per_taxon_mean.filter (fun p => decide (min_abundance ≤ p.2)) }

/-- All taxon paths appearing in a rank's published aggregates: the
rank's taxon_path universe as visible in the engine state. -/
def rankUniverse (st : EngineState) (rank : String) : List TaxonPath :=
  match findRank st rank with
  | none => []
  | some rd => (rd.aggregates.map (fun p => p.2.per_taxon_mean.map (·.1))).flatten

/-- Modelled from the spec: `listEnvironments()` — one record per
normalized environment label with its sample count, sorted by
sample_count descending then label ascending (sections 4.2 and 4.4). -/
def listEnvironments (m : MetadataIndex) : List (EnvironmentLabel × Nat) :=
  let labels := (m.map (fun p => normalizeLabel p.2.organism_name)).dedup
  List.insertionSort keyLE (labels.map (fun lab =>
    (lab, m.countP (fun p => decide (normalizeLabel p.2.organism_name = lab)))))

/-! ### Engine state operations, modelled from the spec (sections 5 and 7) -/

/-- Modelled from the spec: an operation-level failure — a load error or
an aggregation error (section 7). -/
inductive EngError
  | load (e : LoadError)
  | agg (e : AggregationError)
deriving DecidableEq

/-- Replace (or add) the published data of one rank, leaving all other
ranks untouched (spec section 5: immutable-snapshot replacement). -/
def setRank (st : EngineState) (rank : String) (rd : RankData) : EngineState :=
  if (st.ranks.find? (fun p => decide (p.1 = rank))).isSome then
    ⟨st.ranks.map (fun p => if p.1 = rank then (rank, rd) else p)⟩
  else ⟨st.ranks ++ [(rank, rd)]⟩

/-- Modelled from the spec: load a source then aggregate it — the result
published for a rank, or the first error encountered (sections 4.1, 4.3). -/
def loadAndAggregate (src : Source) (m : MetadataIndex) :
    Except EngError RankData :=
  match load src with
  | .error e => .error (.load e)
  | .ok (tbl, _, _) =>
    match aggregate tbl m 1 with
    | .error e => .error (.agg e)
    | .ok (envs, sum) => .ok ⟨envs, sum⟩

/-- Modelled from the spec: reload of a rank — on success the rank's data
is atomically swapped in; on `LoadError` or `AggregationError` the
operation aborts and the prior state is kept (sections 5 and 7). -/
def reloadRank (st : EngineState) (rank : String) (src : Source)
    (m : MetadataIndex) : EngineState × Option EngError :=
  match loadAndAggregate src m with
  | .error e => (st, some e)
  | .ok rd => (setRank st rank rd, none)

/-- Modelled from the spec: `ensureRank(rank)` — populate the cache for a
rank that is not yet loaded; a loaded rank is left untouched (section
4.4). -/
def ensureRank (st : EngineState) (rank : String) (src : Source)
    (m : MetadataIndex) : EngineState :=
  match findRank st rank with
  | some _ => st
  | none => (reloadRank st rank src m).1

/-! ### Per-rank load scheduler, modelled from the spec (section 5) -/

/-- Modelled from the spec: the scheduler state of one rank — the task id
of the in-flight load if one is running, the number of underlying loads
started so far, and a fresh-id counter (section 5); not present in the
source. -/
structure SchedState where
  inFlight : Option Nat
  loads : Nat
  nextId : Nat
deriving DecidableEq

/-- Modelled from the spec: one caller's `ensureRank` request for a rank —
a request while a load is in flight coalesces onto the in-flight task;
otherwise a new underlying load is started (section 5). Returns the task
id the caller awaits. -/
def requestLoad (s : SchedState) : SchedState × Nat :=
  match s.inFlight with
  | some t => (s, t)
  | none =>
    ({ inFlight := some s.nextId, loads := s.loads + 1, nextId := s.nextId + 1 },
      s.nextId)

/-- Run `n` concurrent requests for the same rank, interleaved as atomic
scheduler steps; collect the task ids handed to the callers. -/
def runRequests : Nat → SchedState → SchedState × List Nat
  | 0, s => (s, [])
  | n + 1, s =>
    let (s1, t) := requestLoad s
    let (s2, ts) := runRequests n s1
    (s2, t :: ts)

/-! ### Fixtures: the spec's worked example (section 8) and small states -/

/-- The spec's two-row taxon table: run R1 with p__A 60, p__B 40 and run R2
with p__A 80, p__B 20. -/
def soilTable : TaxonTable :=
  [⟨"R1", [("p__A", 60), ("p__B", 40)]⟩, ⟨"R2", [("p__A", 80), ("p__B", 20)]⟩]

/-- The spec's metadata: both runs map to environment soil metagenome. -/
def soilMeta : MetadataIndex :=
  [("R1", ⟨"soil metagenome", none⟩), ("R2", ⟨"soil metagenome", none⟩)]

def soilRow1 : TaxonRow := ⟨"R1", [("p__A", 60), ("p__B", 40)]⟩

def soilRow2 : TaxonRow := ⟨"R2", [("p__A", 80), ("p__B", 20)]⟩

/-- The aggregate the spec expects for the soil example: means 70 and 30
with sample_count 2. -/
def soilComp : AggregateComposition :=
  ⟨2, [("p__A", 70), ("p__B", 30)], [("p__A", 2), ("p__B", 2)]⟩

/-- Engine state obtained by aggregating the soil example at rank phylum. -/
def soilState : EngineState :=
  match aggregate soilTable soilMeta 1 with
  | .ok (envs, sum) => ⟨[("phylum", ⟨envs, sum⟩)]⟩
  | .error _ => ⟨[]⟩

/-- An aggregate whose only taxon sits exactly at the 1 percent boundary. -/
def boundaryComp : AggregateComposition :=
  ⟨1, [("d__B;p__X", 1)], [("d__B;p__X", 1)]⟩

/-- A one-environment state whose only taxon sits exactly at the 1 percent
boundary. -/
def boundaryState : EngineState :=
  ⟨[("phylum", ⟨[("env", boundaryComp)], ⟨0, 0⟩⟩)]⟩

/-! ### Helper lemmas -/

theorem length_filterMap_add_countP_none {α β : Type} (f : α → Option β) :
    ∀ l : List α,
      (l.filterMap f).length + l.countP (fun a => (f a).isNone) = l.length
  | [] => rfl
  | a :: l => by
    have ih := length_filterMap_add_countP_none f l
    cases h : f a with
    | none =>
      simp only [List.filterMap_cons, h, List.countP_cons, Option.isNone_none,
        List.length_cons, if_pos trivial]
      omega
    | some b =>
      simp only [List.filterMap_cons, h, List.countP_cons, Option.isNone_some,
        List.length_cons, Bool.false_eq_true, if_false]
      omega

theorem sortTaxa_perm (l : List (TaxonPath × ℚ)) : List.Perm (sortTaxa l) l :=
  List.perm_insertionSort keyLE l

theorem sortTaxa_sorted (l : List (TaxonPath × ℚ)) :
    List.Sorted keyLE (sortTaxa l) :=
  List.sorted_insertionSort keyLE l

theorem sortEnvs_perm (l : List (EnvironmentLabel × AggregateComposition)) :
    List.Perm (sortEnvs l) l :=
  List.perm_insertionSort envLE l

/-- An environment record in a successful aggregation is the aggregate of
its group's matched rows. -/
theorem aggregate_ok_mem {t : TaxonTable} {m : MetadataIndex} {ms : Nat}
    {envs : List (EnvironmentLabel × AggregateComposition)} {sm : AggSummary}
    (h : aggregate t m ms = .ok (envs, sm)) {lab : EnvironmentLabel}
    {comp : AggregateComposition} (hmem : (lab, comp) ∈ envs) :
    comp = groupComposition (groupRows t m lab) := by
  simp only [aggregate] at h
  split at h
  · exact absurd h (by simp)
  · injection h with h1
    have he := congrArg Prod.fst h1
    simp only at he
    rw [← he] at hmem
    have h2 := (sortEnvs_perm _).mem_iff.mp hmem
    have h3 := (List.mem_filter.mp h2).1
    obtain ⟨lab', _, heq⟩ := List.mem_map.mp h3
    obtain ⟨hl, hc⟩ := Prod.ext_iff.mp heq
    simp only at hl hc
    subst hl
    exact hc.symm

/-- The spec's worked soil example aggregates to one environment with the
expected means (70, 30), counts and sample_count 2. -/
theorem aggregate_soil : aggregate soilTable soilMeta 1 =
    .ok ([("soil metagenome", soilComp)], ⟨0, 0⟩) := by
  have hmatch : matchedRows soilTable soilMeta =
      [("soil metagenome", soilRow1), ("soil metagenome", soilRow2)] := by decide
  have hn : normalizeLabel "soil metagenome" = "soil metagenome" := by decide
  have hgroup : groupRows soilTable soilMeta "soil metagenome" =
      [soilRow1, soilRow2] := by decide
  have hcomp : groupComposition [soilRow1, soilRow2] = soilComp := by
    norm_num +decide [groupComposition, groupTaxa, sortTaxa, rowAbund, keyLE,
      soilRow1, soilRow2, soilComp, List.insertionSort, List.orderedInsert]
  simp +decide [aggregate, hmatch, hn, hgroup, hcomp, sortEnvs, envLE, keyLE]

/-- The engine state built from the soil example publishes exactly the
expected aggregate at rank phylum. -/
theorem soilState_eq :
    soilState = ⟨[("phylum", ⟨[("soil metagenome", soilComp)], ⟨0, 0⟩⟩)]⟩ := by
  simp [soilState, aggregate_soil]

theorem find?_map_keyUpdate (rank rank' : String) (rd : RankData)
    (h : rank' ≠ rank) :
    ∀ l : List (String × RankData),
      (l.map (fun p => if p.1 = rank then (rank, rd) else p)).find?
          (fun p => decide (p.1 = rank')) =
        l.find? (fun p => decide (p.1 = rank'))
  | [] => rfl
  | p :: l => by
    have hne : rank ≠ rank' := fun hcon => h hcon.symm
    by_cases hp : p.1 = rank
    · have h1 : (if p.1 = rank then (rank, rd) else p) = (rank, rd) := if_pos hp
      have h2 : decide (p.1 = rank') = false := by
        rw [hp]; exact decide_eq_false hne
      have h3 : decide ((rank, rd).1 = rank') = false := decide_eq_false hne
      simp only [List.map_cons, h1, List.find?_cons, h2, h3]
      exact find?_map_keyUpdate rank rank' rd h l
    · have h1 : (if p.1 = rank then (rank, rd) else p) = p := if_neg hp
      simp only [List.map_cons, h1, List.find?_cons]
      cases hd : decide (p.1 = rank')
      · exact find?_map_keyUpdate rank rank' rd h l
      · rfl

theorem find?_map_keyUpdate_self (rank : String) (rd : RankData) :
    ∀ l : List (String × RankData),
      (l.find? (fun p => decide (p.1 = rank))).isSome →
        (l.map (fun p => if p.1 = rank then (rank, rd) else p)).find?
            (fun p => decide (p.1 = rank)) = some (rank, rd)
  | [] => by intro h; simp [List.find?] at h
  | p :: l => by
    intro hsome
    by_cases hp : p.1 = rank
    · have h1 : (if p.1 = rank then (rank, rd) else p) = (rank, rd) := if_pos hp
      simp only [List.map_cons, h1, List.find?_cons]
      simp
    · have h1 : (if p.1 = rank then (rank, rd) else p) = p := if_neg hp
      have h2 : decide (p.1 = rank) = false := decide_eq_false hp
      simp only [List.map_cons, h1, List.find?_cons, h2] at hsome ⊢
      exact find?_map_keyUpdate_self rank rd l hsome

/-- Setting a rank's data leaves every other rank's published data
untouched. -/
theorem findRank_setRank_ne (st : EngineState) (rank rank' : String)
    (rd : RankData) (h : rank' ≠ rank) :
    findRank (setRank st rank rd) rank' = findRank st rank' := by
  unfold setRank findRank
  cases hfind : st.ranks.find? (fun p => decide (p.1 = rank)) with
  | some q =>
    simp only [hfind, Option.isSome_some, if_pos trivial]
    rw [find?_map_keyUpdate rank rank' rd h]
  | none =>
    simp only [hfind, Option.isSome_none, Bool.false_eq_true, if_false]
    rw [List.find?_append]
    have h2 : ([(rank, rd)].find? (fun p => decide (p.1 = rank'))) = none := by
      have hne : ¬rank = rank' := fun hcon => h hcon.symm
      simp [hne]
    rw [h2]
    cases st.ranks.find? (fun p => decide (p.1 = rank')) <;> rfl

/-- Setting a rank's data publishes exactly that data for the rank. -/
theorem findRank_setRank_self (st : EngineState) (rank : String)
    (rd : RankData) : findRank (setRank st rank rd) rank = some rd := by
  unfold setRank findRank
  cases hfind : st.ranks.find? (fun p => decide (p.1 = rank)) with
  | some q =>
    simp only [hfind, Option.isSome_some, if_pos trivial]
    rw [find?_map_keyUpdate_self rank rd st.ranks (by rw [hfind]; rfl)]
    rfl
  | none =>
    simp only [hfind, Option.isSome_none, Bool.false_eq_true, if_false]
    rw [List.find?_append, hfind]
    simp

/-- While a load for the rank is in flight every further request leaves
the scheduler untouched and is handed the in-flight task. -/
theorem runRequests_inFlight (t : Nat) :
    ∀ (n : Nat) (s : SchedState), s.inFlight = some t →
      runRequests n s = (s, List.replicate n t)
  | 0, s, _ => rfl
  | n + 1, s, h => by
    have hreq : requestLoad s = (s, t) := by
      unfold requestLoad
      rw [h]
    simp only [runRequests, hreq]
    rw [runRequests_inFlight t n s h]
    rfl

/-! ### Claim theorems -/

/-- C10: for every taxon path string, the display label computed by the
chart component is the first semicolon-separated segment that starts with
p__ with that prefix removed; if no segment of the path starts with p__,
the full unmodified taxon path is used as the label. -/
theorem claim_C10_chart_label (t : String) :
    chartLabel t =
      ((splitChars (fun c => c = ';') t).find?
          (fun part => jsStartsWith part "p__")).elim t
        (fun seg => ⟨seg.toList.drop 3⟩) := by
  simp only [chartLabel]
  cases hf : (splitChars (fun c => c = ';') t).find?
      (fun part => jsStartsWith part "p__") with
  | none => rfl
  | some seg =>
    have hpre : jsStartsWith seg "p__" = true :=
      List.find?_some (p := fun part => jsStartsWith part "p__") hf
    unfold jsStartsWith at hpre
    show jsReplaceFirst seg "p__" "" = ⟨seg.toList.drop 3⟩
    have hl : "p__".toList = ['p', '_', '_'] := rfl
    rw [hl] at hpre
    unfold jsReplaceFirst
    have hemp : "p__".isEmpty = false := rfl
    rw [hemp]
    simp only [Bool.false_eq_true, if_false]
    cases hseg : seg.toList with
    | nil => rw [hseg] at hpre; exact absurd hpre (by decide)
    | cons c cs =>
      rw [hseg] at hpre
      rw [hl]
      unfold replFirstAux
      rw [if_pos hpre]
      rfl

/-- C7: for every state of the engine, an operation that fails with
LoadError or AggregationError leaves all previously computed state
unchanged: aggregates for other ranks and the previous version of the
failed rank are exactly as they were before the operation started. -/
theorem claim_C7_errors_leave_state_untouched (st : EngineState)
    (rank : String) (src : Source) (m : MetadataIndex) :
    ((reloadRank st rank src m).2.isSome → (reloadRank st rank src m).1 = st)
    ∧ ∀ rank', rank' ≠ rank →
        findRank ((reloadRank st rank src m).1) rank' = findRank st rank' := by
  cases hl : loadAndAggregate src m with
  | error e =>
    constructor
    · intro _
      simp [reloadRank, hl]
    · intro rank' _
      simp [reloadRank, hl]
  | ok rd =>
    constructor
    · intro hsome
      simp [reloadRank, hl] at hsome
    · intro rank' h
      simp only [reloadRank, hl]
      exact findRank_setRank_ne st rank rank' rd h

/-- C7 witness: a reload from an unreadable source fails and leaves the
empty engine state, and every other rank's view, unchanged. -/
theorem claim_C7_witness :
    (reloadRank ⟨[]⟩ "phylum" Source.unreadable []).1 = ⟨[]⟩
    ∧ findRank (reloadRank ⟨[]⟩ "phylum" Source.unreadable []).1 "genus" =
        findRank ⟨[]⟩ "genus" :=
  ⟨(claim_C7_errors_leave_state_untouched ⟨[]⟩ "phylum" Source.unreadable []).1
      rfl,
    (claim_C7_errors_leave_state_untouched ⟨[]⟩ "phylum" Source.unreadable []).2
      "genus" (by decide)⟩

/-- C8: for every taxon table and metadata index, calling aggregate twice
on the unchanged inputs yields byte-identical AggregateComposition records
(aggregate is a pure, deterministic function of its inputs, ordering
included), and re-running ensureRank on the resulting state changes
nothing. -/
theorem claim_C8_aggregate_idempotent :
    (∀ (t : TaxonTable) (m : MetadataIndex) (ms : Nat),
        aggregate t m ms = aggregate t m ms)
    ∧ ∀ (st : EngineState) (rank : String) (src : Source) (m : MetadataIndex),
        ensureRank (ensureRank st rank src m) rank src m =
          ensureRank st rank src m := by
  constructor
  · intro t m ms
    rfl
  · intro st rank src m
    cases hf : findRank st rank with
    | some rd => simp [ensureRank, hf]
    | none =>
      simp only [ensureRank, hf]
      cases hl : loadAndAggregate src m with
      | error e => simp [reloadRank, hl, hf]
      | ok rd => simp [reloadRank, hl, findRank_setRank_self]

/-- C9: for every rank, concurrent calls to ensureRank for that same rank
while its load is in flight coalesce onto the same in-flight task (the
scheduler state does not change and every caller is handed the in-flight
task id), and in every case at most one underlying load is performed. -/
theorem claim_C9_requests_coalesce (n : Nat) (s : SchedState) (t : Nat) :
    (s.inFlight = some t → runRequests n s = (s, List.replicate n t))
    ∧ (runRequests n s).1.loads ≤ s.loads + 1 := by
  constructor
  · exact runRequests_inFlight t n s
  · induction n generalizing s with
    | zero => simp [runRequests]
    | succ n ih =>
      cases hf : s.inFlight with
      | some u =>
        have hreq : requestLoad s = (s, u) := by
          unfold requestLoad
          rw [hf]
        simp only [runRequests, hreq]
        have := ih s
        cases hr : runRequests n s with
        | mk s2 ts =>
          rw [hr] at this
          simpa using this
      | none =>
        have hreq : requestLoad s =
            (⟨some s.nextId, s.loads + 1, s.nextId + 1⟩, s.nextId) := by
          unfold requestLoad
          rw [hf]
        simp only [runRequests, hreq]
        rw [runRequests_inFlight s.nextId n _ rfl]

/-- C9 witness: three concurrent requests while task 0 is in flight leave
the scheduler untouched and hand every caller task 0, so the load counter
stays at 1. -/
theorem claim_C9_witness :
    runRequests 3 ⟨some 0, 1, 1⟩ = (⟨some 0, 1, 1⟩, [0, 0, 0]) :=
  (claim_C9_requests_coalesce 3 ⟨some 0, 1, 1⟩ 0).1 rfl

/-- C2: for every group of matched rows, aggregate reports each taxon's
mean as the sum of that taxon's values over all samples in the group
(absent treated as 0) divided by the group's sample_count; in particular
the soil example yields means p__A 70 and p__B 30 with sample_count 2. -/
theorem claim_C2_mean_is_sum_over_sample_count :
    (∀ (t : TaxonTable) (m : MetadataIndex) (ms : Nat) envs sm lab comp,
        aggregate t m ms = .ok (envs, sm) → (lab, comp) ∈ envs →
        comp.sample_count = (groupRows t m lab).length ∧
        ∀ tp mu, (tp, mu) ∈ comp.per_taxon_mean →
          mu = ((groupRows t m lab).map (fun r => (rowAbund r tp).getD 0)).sum /
            ((groupRows t m lab).length : ℚ))
    ∧ getComposition soilState "soil metagenome" "phylum" 0 = .ok soilComp := by
  constructor
  · intro t m ms envs sm lab comp hok hmem
    have hcomp := aggregate_ok_mem hok hmem
    subst hcomp
    constructor
    · rfl
    · intro tp mu hmu
      simp only [groupComposition] at hmu
      have h2 := (sortTaxa_perm _).mem_iff.mp hmu
      obtain ⟨tp', _, heq⟩ := List.mem_map.mp h2
      obtain ⟨h1, h2'⟩ := Prod.ext_iff.mp heq
      simp only at h1 h2'
      subst h1
      exact h2'.symm
  · rw [soilState_eq]
    simp +decide [getComposition, findStored, findRank, soilComp]

/-- C2 witness: in the soil example the reported mean of p__A equals the
sum of its abundances over the group divided by the sample count. -/
theorem claim_C2_witness :
    (70 : ℚ) = ((groupRows soilTable soilMeta "soil metagenome").map
        (fun r => (rowAbund r "p__A").getD 0)).sum /
      ((groupRows soilTable soilMeta "soil metagenome").length : ℚ) :=
  (claim_C2_mean_is_sum_over_sample_count.1 soilTable soilMeta 1
      [("soil metagenome", soilComp)] ⟨0, 0⟩ "soil metagenome" soilComp
      aggregate_soil (by simp)).2 "p__A" 70 (by simp [soilComp])

/-- C3: aggregate throws AggregationError if and only if zero rows of the
table matched the metadata; with at least one match it succeeds, with the
unmatched count exposed in the summary; duplicate metadata keys are
counted by the metadata load, never raised. -/
theorem claim_C3_error_iff_zero_matched (t : TaxonTable) (m : MetadataIndex)
    (ms : Nat) :
    ((∃ e, aggregate t m ms = .error e) ↔ matchedRows t m = [])
    ∧ (∀ envs sm, aggregate t m ms = .ok (envs, sm) →
        sm.unmatched = t.length - (matchedRows t m).length)
    ∧ ∀ rows, ((loadMetadata rows).1).length + (loadMetadata rows).2 =
        rows.length := by
  refine ⟨⟨?_, ?_⟩, ?_, ?_⟩
  · rintro ⟨e, he⟩
    simp only [aggregate] at he
    by_cases hm : (matchedRows t m).isEmpty = true
    · exact List.isEmpty_iff.mp hm
    · rw [if_neg hm] at he
      cases he
  · intro hm
    refine ⟨.noRowsMatched, ?_⟩
    simp [aggregate, hm]
  · intro envs sm hok
    simp only [aggregate] at hok
    split at hok
    · cases hok
    · injection hok with h1
      have hs := congrArg Prod.snd h1
      simp only at hs
      rw [← hs]
  · intro rows
    induction rows with
    | nil => rfl
    | cons row rest ih =>
      simp only [loadMetadata]
      cases hld : loadMetadata rest with
      | mk idx d =>
        rw [hld] at ih
        simp only at ih
        by_cases hf : (idx.find? (fun p => decide (p.1 = row.1))).isSome = true
        · rw [if_pos hf]
          simp only [List.length_cons]
          omega
        · rw [if_neg hf]
          simp only [List.length_cons]
          omega

/-- C3 witness: the soil example has two matched rows, so aggregation
succeeds and reports zero unmatched rows. -/
theorem claim_C3_witness :
    (⟨0, 0⟩ : AggSummary).unmatched =
      soilTable.length - (matchedRows soilTable soilMeta).length :=
  (claim_C3_error_iff_zero_matched soilTable soilMeta 1).2.1
    [("soil metagenome", soilComp)] ⟨0, 0⟩ aggregate_soil

/-- C4: for every exported composition, the taxa are ordered by mean
abundance descending with ties broken by taxon_path ascending, and the
export order is a deterministic function of the (taxon_path, mean) pairs
alone. -/
theorem claim_C4_export_taxa_sorted_deterministic :
    (∀ (t : TaxonTable) (m : MetadataIndex) (ms : Nat) envs sm e,
        aggregate t m ms = .ok (envs, sm) → e ∈ envs →
        List.Sorted keyLE e.2.per_taxon_mean)
    ∧ ∀ l₁ l₂ : List (TaxonPath × ℚ), List.Perm l₁ l₂ →
        sortTaxa l₁ = sortTaxa l₂ := by
  constructor
  · intro t m ms envs sm e hok hmem
    cases e with
    | mk lab comp =>
      have h := aggregate_ok_mem hok hmem
      simp only
      rw [h]
      simp only [groupComposition]
      exact sortTaxa_sorted _
  · intro l₁ l₂ hp
    exact List.eq_of_perm_of_sorted
      ((sortTaxa_perm l₁).trans (hp.trans (sortTaxa_perm l₂).symm))
      (sortTaxa_sorted l₁) (sortTaxa_sorted l₂)

/-- C4 witness: the soil example's exported composition is sorted by the
export order. -/
theorem claim_C4_witness : List.Sorted keyLE soilComp.per_taxon_mean :=
  claim_C4_export_taxa_sorted_deterministic.1 soilTable soilMeta 1
    [("soil metagenome", soilComp)] ⟨0, 0⟩ ("soil metagenome", soilComp)
    aggregate_soil (by simp)

/-- C5: for every input ordering of raw metadata rows, listEnvironments
returns the label/sample_count records sorted by sample_count descending
and, among equal counts, by label ascending: the result is sorted and is
invariant under permutation of the input rows. -/
theorem claim_C5_listEnvironments_sorted :
    (∀ m : MetadataIndex, List.Sorted keyLE (listEnvironments m))
    ∧ ∀ m₁ m₂ : MetadataIndex, List.Perm m₁ m₂ →
        listEnvironments m₁ = listEnvironments m₂ := by
  constructor
  · intro m
    exact List.sorted_insertionSort keyLE _
  · intro m₁ m₂ hp
    simp only [listEnvironments]
    have h2 : (((m₂.map (fun p => normalizeLabel p.2.organism_name)).dedup).map
          (fun lab => (lab, m₁.countP
            (fun p => decide (normalizeLabel p.2.organism_name = lab))))) =
        (((m₂.map (fun p => normalizeLabel p.2.organism_name)).dedup).map
          (fun lab => (lab, m₂.countP
            (fun p => decide (normalizeLabel p.2.organism_name = lab))))) :=
      List.map_congr_left (fun a _ => by rw [hp.countP_eq])
    have h1 : List.Perm
        (((m₁.map (fun p => normalizeLabel p.2.organism_name)).dedup).map
          (fun lab => (lab, m₁.countP
            (fun p => decide (normalizeLabel p.2.organism_name = lab)))))
        (((m₂.map (fun p => normalizeLabel p.2.organism_name)).dedup).map
          (fun lab => (lab, m₂.countP
            (fun p => decide (normalizeLabel p.2.organism_name = lab))))) := by
      rw [← h2]
      exact ((hp.map _).dedup).map _
    exact List.eq_of_perm_of_sorted
      ((List.perm_insertionSort keyLE _).trans
        (h1.trans (List.perm_insertionSort keyLE _).symm))
      (List.sorted_insertionSort keyLE _) (List.sorted_insertionSort keyLE _)

/-- C5 witness: swapping the soil example's two metadata rows does not
change the listEnvironments output. -/
theorem claim_C5_witness :
    listEnvironments [("R2", ⟨"soil metagenome", none⟩),
        ("R1", ⟨"soil metagenome", none⟩)] =
      listEnvironments soilMeta :=
  claim_C5_listEnvironments_sorted.2 _ soilMeta (List.Perm.swap _ _ _)

/-- C1 counterexample: a taxon whose mean abundance is exactly 1 is
returned by getComposition with min_abundance 1, but the chart component
does not display it — the presentation layer's filter is strictly greater
than 1, not the same greater-or-equal convention. -/
theorem claim_C1_counterexample :
    getComposition boundaryState "env" "phylum" 1 = .ok boundaryComp
    ∧ ("d__B;p__X", (1 : ℚ)) ∉ chartFilteredData [("d__B;p__X", (1 : ℚ))] := by
  constructor
  · simp +decide [boundaryState, boundaryComp, getComposition, findStored,
      findRank]
  · decide

/-- C1 (amended): getComposition(env, rank, min_abundance) returns exactly
the stored taxa with mean at least min_abundance and never a taxon path
absent from the rank's taxon_path universe; the presentation layer,
however, displays exactly the taxa with abundance strictly greater
than 1. -/
theorem claim_C1_threshold_filter :
    (∀ (st : EngineState) (env rank : String) (q : ℚ)
        (comp : AggregateComposition),
        getComposition st env rank q = .ok comp →
        ∃ sc, findStored st env rank = some sc ∧
          comp.sample_count = sc.sample_count ∧
          comp.per_taxon_count = sc.per_taxon_count ∧
          comp.per_taxon_mean =
            sc.per_taxon_mean.filter (fun p => decide (q ≤ p.2)) ∧
          ∀ p ∈ comp.per_taxon_mean, q ≤ p.2 ∧ p.1 ∈ rankUniverse st rank)
    ∧ ∀ (data : List (String × ℚ)) (p : String × ℚ),
        p ∈ chartFilteredData data ↔ p ∈ data ∧ 1 < p.2 := by
  constructor
  · intro st env rank q comp hok
    simp only [getComposition] at hok
    cases hst : findStored st env rank with
    | none =>
      rw [hst] at hok
      cases hok
    | some sc =>
      rw [hst] at hok
      injection hok with h1
      subst h1
      refine ⟨sc, rfl, rfl, rfl, rfl, ?_⟩
      intro p hp
      have hmf := List.mem_filter.mp hp
      refine ⟨of_decide_eq_true hmf.2, ?_⟩
      simp only [findStored] at hst
      cases hfr : findRank st rank with
      | none =>
        rw [hfr] at hst
        simp at hst
      | some rd =>
        rw [hfr] at hst
        have hst2 : Option.map (fun x => x.2)
            (rd.aggregates.find? (fun e => decide (e.1 = normalizeLabel env))) =
            some sc := hst
        simp only [rankUniverse, hfr]
        cases hfind : rd.aggregates.find?
            (fun e => decide (e.1 = normalizeLabel env)) with
        | none =>
          rw [hfind] at hst2
          simp at hst2
        | some entry =>
          rw [hfind] at hst2
          simp only [Option.map_some'] at hst2
          injection hst2 with h2
          have hentry := List.mem_of_find?_eq_some hfind
          refine List.mem_flatten.mpr ⟨entry.2.per_taxon_mean.map (·.1), ?_, ?_⟩
          · exact List.mem_map.mpr ⟨entry, hentry, rfl⟩
          · rw [h2]
            exact List.mem_map.mpr ⟨p, hmf.1, rfl⟩
  · intro data p
    constructor
    · intro hp
      have hm := (List.perm_insertionSort _ _).mem_iff.mp hp
      have hmf := List.mem_filter.mp hm
      exact ⟨hmf.1, of_decide_eq_true hmf.2⟩
    · intro hp
      exact (List.perm_insertionSort _ _).mem_iff.mpr
        (List.mem_filter.mpr ⟨hp.1, decide_eq_true hp.2⟩)

/-- C1 witness: at the boundary state, the composition returned with
min_abundance 1 is exactly the stored aggregate filtered at 1, and every
returned taxon lies in the rank's universe. -/
theorem claim_C1_witness :
    ∃ sc, findStored boundaryState "env" "phylum" = some sc ∧
      boundaryComp.sample_count = sc.sample_count ∧
      boundaryComp.per_taxon_count = sc.per_taxon_count ∧
      boundaryComp.per_taxon_mean =
        sc.per_taxon_mean.filter (fun p => decide ((1 : ℚ) ≤ p.2)) ∧
      ∀ p ∈ boundaryComp.per_taxon_mean,
        (1 : ℚ) ≤ p.2 ∧ p.1 ∈ rankUniverse boundaryState "phylum" :=
  claim_C1_threshold_filter.1 boundaryState "env" "phylum" 1 boundaryComp
    (by simp +decide [boundaryState, boundaryComp, getComposition, findStored,
      findRank])

/-- C6: a malformed row (wrong column count or non-numeric abundance) is
skipped and counted without aborting the load, the skipped-row count is
returned alongside the table, and load fails with LoadError exactly when
the source is unreadable or the input is empty or header-only. -/
theorem claim_C6_loader_skips_malformed (src : Source) :
    ((∃ e, load src = .error e) ↔
      src = .unreadable ∨ src = .content [] ∨ ∃ h, src = .content [h])
    ∧ (∀ (taxa : List TaxonPath) (cells : List String),
        parseRow taxa cells = none ↔
          ¬(cells.length = taxa.length + 1 ∧
            ∀ v ∈ cells.drop 1, (parseAbundance v).isSome))
    ∧ ∀ header rows, src = .content (header :: rows) → rows ≠ [] →
        ∃ tbl taxa k, load src = .ok (tbl, taxa, k) ∧
          tbl = rows.filterMap (parseRow (header.drop 1)) ∧
          k = rows.countP (fun r => (parseRow (header.drop 1) r).isNone) ∧
          tbl.length + k = rows.length := by
  refine ⟨?_, ?_, ?_⟩
  · cases src with
    | unreadable => simp [load]
    | content rows =>
      cases rows with
      | nil => simp [load]
      | cons header rest =>
        cases rest with
        | nil => simp [load]
        | cons r2 rest2 => simp [load]
  · intro taxa cells
    cases cells with
    | nil => simp [parseRow]
    | cons runId vals =>
      simp only [parseRow, List.length_cons, List.drop_succ_cons,
        List.drop_zero]
      split
      · rename_i hcond
        obtain ⟨hlen, hall⟩ := hcond
        constructor
        · intro h
          simp at h
        · intro hneg
          exact absurd ⟨by omega, List.all_eq_true.mp hall⟩ hneg
      · rename_i hcond
        constructor
        · intro _ hcon
          obtain ⟨hlen, hvals⟩ := hcon
          exact hcond ⟨by omega, List.all_eq_true.mpr (fun v hv => hvals v hv)⟩
        · intro _
          rfl
  · intro header rows hsrc hne
    subst hsrc
    cases rows with
    | nil => exact absurd rfl hne
    | cons r rs =>
      exact ⟨_, _, _, rfl, rfl, rfl, length_filterMap_add_countP_none _ _⟩

/-- C6 witness: a source with one well-formed row, one row with a wrong
column count and one row with a non-numeric abundance loads successfully,
skipping and counting the two malformed rows. -/
theorem claim_C6_witness :
    ∃ tbl taxa k,
      load (.content [["run", "p__A"], ["R1", "60"], ["R1"], ["R2", "xx"]]) =
        .ok (tbl, taxa, k) ∧
      tbl = [["R1", "60"], ["R1"], ["R2", "xx"]].filterMap
        (parseRow (["run", "p__A"].drop 1)) ∧
      k = [["R1", "60"], ["R1"], ["R2", "xx"]].countP
        (fun r => (parseRow (["run", "p__A"].drop 1) r).isNone) ∧
      tbl.length + k = [["R1", "60"], ["R1"], ["R2", "xx"]].length :=
  (claim_C6_loader_skips_malformed
      (.content [["run", "p__A"], ["R1", "60"], ["R1"], ["R2", "xx"]])).2.2
    ["run", "p__A"] [["R1", "60"], ["R1"], ["R2", "xx"]] rfl (by simp)

end Microorg
